import Mathlib

/-!
Verification development for the opencode dynamic-context-pruning plugin.

Each definition below is a shallow embedding of a function of the TypeScript
source (file and symbol named in its doc comment).  JavaScript insertion-ordered
maps are modelled as association lists, machine numbers as Nat / Int / Rat, and
JSON parsing as an explicit partial function passed in as a parameter.
-/

namespace DCP

/-! ### Insertion-ordered map primitives (JavaScript Map semantics) -/

/-- JavaScript String.prototype.toLowerCase, modelled charwise (adequate for
the ASCII tool-call ids and model-id patterns this code handles); built on
the char list so that it reduces in the kernel. -/
def strLower (s : String) : String := ⟨s.data.map Char.toLower⟩

/-- JavaScript Map.set: updating an existing key keeps its insertion position,
a new key is appended at the end. -/
def mapSet {V : Type} (m : List (String × V)) (k : String) (v : V) : List (String × V) :=
  if m.any (fun p => p.1 = k) then
    m.map (fun p => if p.1 = k then (k, v) else p)
  else
    m ++ [(k, v)]

/-- JavaScript Map.delete: removes the entry with the given key. -/
def mapDelete {V : Type} (m : List (String × V)) (k : String) : List (String × V) :=
  m.filter (fun p => p.1 ≠ k)

/-- JavaScript Map.get as an Option. -/
def mapGet {V : Type} (m : List (String × V)) (k : String) : Option V :=
  (m.find? (fun p => p.1 = k)).map Prod.snd

/-- Keys of the map in insertion order (Array.from(map.keys())). -/
def mapKeys {V : Type} (m : List (String × V)) : List String :=
  m.map Prod.fst

/-! ### Internal message/part model (src/lib/state, used by src/unnamed/part_002)

The opencode-internal message list is a list of records with an `info` header
and a `parts` array.  A part is a duck-typed JavaScript object; we model it as
a flat record carrying every field any branch of the source reads or writes,
so that frame conditions (which fields stay untouched) are expressible. -/

/-- Tool part status, src/lib/state ToolStatus. -/
inductive PStatus
  | pending
  | running
  | completed
  | error
deriving DecidableEq, Repr

/-- The state object of a tool part (part.state in the source). -/
structure PToolState where
  status : PStatus
  input : String
  output : String
  errorText : String
  title : String
deriving DecidableEq, Repr

/-- One message part.  `ptype` is the part.type discriminator string; the tool
fields are meaningful when ptype = "tool", the text fields when ptype = "text". -/
structure Part where
  ptype : String
  callID : String
  tool : String
  pstate : PToolState
  text : String
  synthetic : Bool
deriving DecidableEq, Repr

/-- Message header (info), src/lib/state. -/
structure MsgInfo where
  id : String
  sessionID : String
  role : String
deriving DecidableEq, Repr

/-- WithParts record from src/lib/state. -/
structure WithParts where
  info : MsgInfo
  parts : List Part
deriving DecidableEq, Repr

/-- PRUNED_TOOL_OUTPUT_REPLACEMENT from src/unnamed/part_002. -/
def PRUNED_TOOL_OUTPUT_REPLACEMENT : String :=
  "[Output removed to save context - information superseded or no longer needed]"

/-- Embeds the per-part body of the loop in pruneToolOutputs
(src/unnamed/part_002 lines 100-114): a part is rewritten only when it is a
tool part, its callID is in the pruned id set, and its status is completed;
the rewrite assigns the replacement text to state.output.  The commented-out
error branch of the source is (faithfully) absent. -/
def prunePart (pruneIds : List String) (p : Part) : Part :=
  if p.ptype ≠ "tool" then p
  else if ¬ pruneIds.contains p.callID then p
  else if p.pstate.status = PStatus.completed then
    { p with pstate := { p.pstate with output := PRUNED_TOOL_OUTPUT_REPLACEMENT } }
  else p

/-- pruneToolOutputs from src/unnamed/part_002 lines 95-116: iterates every
part of every message and applies the rewrite in place; modelled as a pure
map over the message list. -/
def pruneToolOutputs (pruneIds : List String) (messages : List WithParts) : List WithParts :=
  messages.map (fun m => { m with parts := m.parts.map (prunePart pruneIds) })

/-- prune from src/unnamed/part_002 lines 85-93: currently delegates to
pruneToolOutputs only. -/
def prune (pruneIds : List String) (messages : List WithParts) : List WithParts :=
  pruneToolOutputs pruneIds messages

/-! ### AWS Bedrock Converse wire format (src/lib/fetch-wrapper/formats/bedrock.ts)

Tool calls are toolUse blocks inside assistant-message content; tool results
are toolResult blocks inside user-message content, correlated by toolUseId. -/

/-- A toolUse block: the tool-call side of a pair. -/
structure BToolUse where
  toolUseId : String
  name : String
  input : String
deriving DecidableEq, Repr

/-- One content block of a Bedrock message. -/
inductive BBlock
  | toolUse (tu : BToolUse)
  | toolResult (toolUseId : String) (content : List String)
  | text (s : String)
  | cachePoint
deriving DecidableEq, Repr

/-- A Bedrock message.  content = none models a message whose content field is
not an array (Array.isArray(m.content) false in the source). -/
structure BMessage where
  role : String
  content : Option (List BBlock)
deriving DecidableEq, Repr

/-- The block-map step of replaceToolOutput (bedrock.ts lines 105-118): a
toolResult block whose lowercased toolUseId matches has its content array
replaced by a single text block carrying the pruned message; every other
block is returned unchanged. -/
def bedrockReplaceBlock (toolIdLower msg : String) (b : BBlock) : BBlock :=
  match b with
  | BBlock.toolResult tid _ =>
      if strLower tid = toolIdLower then BBlock.toolResult tid [msg] else b
  | _ => b

/-- Whether a block is a toolResult matching the (lowercased) id. -/
def bedrockBlockMatches (toolIdLower : String) (b : BBlock) : Bool :=
  match b with
  | BBlock.toolResult tid _ => strLower tid = toolIdLower
  | _ => false

/-- The per-message step of replaceToolOutput (bedrock.ts lines 99-124): a
user message with array content in which some toolResult block matches has
its content rewritten blockwise (and the replaced flag set); every other
message is returned unchanged. -/
def bedrockStep (toolIdLower msg : String) (m : BMessage) : BMessage × Bool :=
  match m.content with
  | some blocks =>
      if m.role = "user" ∧ blocks.any (bedrockBlockMatches toolIdLower) then
        ({ role := m.role,
           content := some (blocks.map (bedrockReplaceBlock toolIdLower msg)) },
          true)
      else (m, false)
  | none => (m, false)

/-- replaceToolOutput from bedrock.ts lines 95-127: scans every user message
with array content, rewrites matching toolResult blocks, and reports whether
any rewrite occurred.  Messages are replaced by value only when a block
matched, which is observationally the unconditional map below. -/
def bedrockReplaceToolOutput (data : List BMessage) (toolId msg : String) :
    List BMessage × Bool :=
  (data.map (fun m => (bedrockStep (strLower toolId) msg m).1),
    data.any (fun m => (bedrockStep (strLower toolId) msg m).2))

/-! ### Tool-parameter cache (src/unnamed/part_004 and part_007 lines 331-418)

OpenAI Chat Completions shaped messages.  JSON.parse is modelled by an
explicit partial parse function; an arguments payload is either a raw string
(to be parsed) or an already-parsed value. -/

/-- The arguments field of a tool call: raw string or already-parsed object. -/
inductive ArgPayload (α : Type)
  | raw (s : String)
  | parsed (a : α)
deriving DecidableEq, Repr

/-- The function field of a tool call. -/
structure CCFunction (α : Type) where
  name : String
  arguments : ArgPayload α
deriving DecidableEq, Repr

/-- One entry of an assistant message tool_calls array.  id = "" models a
falsy id, fn = none models a missing function field. -/
structure CCToolCall (α : Type) where
  id : String
  fn : Option (CCFunction α)
deriving DecidableEq, Repr

/-- A Chat Completions message.  toolCalls = none models a message whose
tool_calls field is not an array. -/
structure CCMessage (α : Type) where
  role : String
  toolCalls : Option (List (CCToolCall α))
deriving DecidableEq, Repr

/-- A cached invocation record (the values of state.toolParameters). -/
structure CacheEntry (α : Type) where
  tool : String
  parameters : α
deriving DecidableEq, Repr

/-- Resolves a tool-call arguments payload exactly as the try block of
cacheToolParametersFromMessages does: a string is JSON.parsed (failure is the
caught exception, giving none), a non-string is used as is. -/
def resolveArgs {α : Type} (parse : String → Option α) : ArgPayload α → Option α
  | ArgPayload.raw s => parse s
  | ArgPayload.parsed a => some a

/-- The per-call body of the cacheToolParametersFromMessages loop (part_004
lines 16-32, identical in part_007 lines 365-382): a call with a truthy id
and a function field whose arguments resolve is set into the cache and its
id recorded; a parse failure (the caught JSON.parse exception) or a missing
id / function skips only this call. -/
def cacheCallStep {α : Type} (parse : String → Option α)
    (acc : List (String × CacheEntry α) × List String) (tc : CCToolCall α) :
    List (String × CacheEntry α) × List String :=
  if tc.id = "" then acc
  else
    match tc.fn with
    | none => acc
    | some f =>
        match resolveArgs parse f.arguments with
        | none => acc
        | some params =>
            (mapSet acc.1 tc.id { tool := f.name, parameters := params },
              acc.2 ++ [tc.id])

/-- The per-message body of cacheToolParametersFromMessages (part_004 lines
11-33, identical loop in part_007 lines 360-383): only assistant messages
with a tool_calls array are scanned. -/
def cacheMsgStep {α : Type} (parse : String → Option α)
    (acc : List (String × CacheEntry α) × List String) (m : CCMessage α) :
    List (String × CacheEntry α) × List String :=
  match m.toolCalls with
  | some calls => if m.role = "assistant" then calls.foldl (cacheCallStep parse) acc else acc
  | none => acc

/-- cacheToolParametersFromMessages from src/unnamed/part_004 lines 7-34
(the variant without the cache-size trim); the returned list of cached ids is
what the part_007 variant returns. -/
def cacheToolParametersFromMessagesV0 {α : Type} (parse : String → Option α)
    (messages : List (CCMessage α)) (st : List (String × CacheEntry α)) :
    List (String × CacheEntry α) × List String :=
  messages.foldl (cacheMsgStep parse) (st, [])

/-- MAX_TOOL_PARAMETERS_CACHE_SIZE from src/unnamed/part_007 line 334. -/
def MAX_TOOL_PARAMETERS_CACHE_SIZE : Nat := 500

/-- trimToolParametersCache from src/unnamed/part_007 lines 340-348: when the
map exceeds the cap, deletes the first (oldest-inserted) excess keys. -/
def trimToolParametersCache {α : Type} (m : List (String × CacheEntry α)) :
    List (String × CacheEntry α) :=
  if m.length > MAX_TOOL_PARAMETERS_CACHE_SIZE then
    ((mapKeys m).take (m.length - MAX_TOOL_PARAMETERS_CACHE_SIZE)).foldl mapDelete m
  else m

/-- cacheToolParametersFromMessages from src/unnamed/part_007 lines 355-386:
the part_004 loop followed by the cache trim; returns the cached ids. -/
def cacheToolParametersFromMessages {α : Type} (parse : String → Option α)
    (messages : List (CCMessage α)) (st : List (String × CacheEntry α)) :
    List (String × CacheEntry α) × List String :=
  let r := cacheToolParametersFromMessagesV0 parse messages st
  (trimToolParametersCache r.1, r.2)

/-! ### Model context-limit inference (src/lib/preemptive/model-limits.ts and
src/unnamed/part_007 lines 296-330)

The source tests a model id against case-insensitive regexes; every regex in
the table is a plain alternation of literal substrings except gpt-4(?!o),
which we embed as a direct scan for an occurrence of gpt-4 not followed
by the letter o.  All tests run on the lowercased id. -/

/-- Scans a char list for an occurrence of the pattern as a contiguous
substring. -/
def hasSubAux (pat : List Char) : List Char → Bool
  | [] => pat.isEmpty
  | c :: cs => pat.isPrefixOf (c :: cs) || hasSubAux pat cs

/-- True when the lowercased pattern occurs as a substring of the lowercased
model id (the case-insensitive regex test for a literal pattern). -/
def containsCI (s pat : String) : Bool :=
  hasSubAux (strLower pat).data (strLower s).data

/-- Regex /claude-(opus|sonnet|haiku)/i. -/
def testClaude (s : String) : Bool :=
  containsCI s "claude-opus" || containsCI s "claude-sonnet" || containsCI s "claude-haiku"

/-- Regex /gpt-4(?!o)/i on an explicit char list (already lowercased): an
occurrence of gpt-4 whose following character, if any, is not o. -/
def gpt4NoOAux : List Char → Bool
  | [] => false
  | c :: cs =>
      (("gpt-4".toList).isPrefixOf (c :: cs) &&
        (match (c :: cs).drop 5 with
         | [] => true
         | d :: _ => d ≠ 'o')) ||
      gpt4NoOAux cs

/-- Regex /gpt-4(?!o)/i. -/
def testGpt4NotO (s : String) : Bool :=
  gpt4NoOAux (strLower s).data

/-- MODEL_CONTEXT_PATTERNS from src/unnamed/part_007 lines 307-321, in the
declared order, each regex replaced by its boolean test. -/
def MODEL_CONTEXT_PATTERNS : List ((String → Bool) × Nat) :=
  [ (testClaude, 200000),
    (fun s => containsCI s "gpt-5", 1000000),
    (fun s => containsCI s "gpt-4-turbo" || containsCI s "gpt-4o", 128000),
    (testGpt4NotO, 8192),
    (fun s => containsCI s "o1" || containsCI s "o3", 200000),
    (fun s => containsCI s "gemini-3", 2000000),
    (fun s => containsCI s "gemini-2.5-pro", 2000000),
    (fun s => containsCI s "gemini", 1000000) ]

/-- DEFAULT_CONTEXT_LIMIT from src/unnamed/part_007 line 324. -/
def DEFAULT_CONTEXT_LIMIT : Nat := 200000

/-- EXTENDED_CONTEXT_LIMIT from src/unnamed/part_007 lines 327-330; the
process environment opt-in (ANTHROPIC_1M_CONTEXT or
VERTEX_ANTHROPIC_1M_CONTEXT equal to "true") is the boolean parameter. -/
def EXTENDED_CONTEXT_LIMIT (env1m : Bool) : Nat :=
  if env1m then 1000000 else DEFAULT_CONTEXT_LIMIT

/-- First matching pattern of the table (the for loop of inferContextLimit,
model-limits.ts lines 18-22). -/
def findPatternLimit (pats : List ((String → Bool) × Nat)) (modelID : String) : Option Nat :=
  match pats with
  | [] => none
  | p :: rest => if p.1 modelID then some p.2 else findPatternLimit rest modelID

/-- inferContextLimit from src/lib/preemptive/model-limits.ts lines 11-25:
Claude opus/sonnet/haiku ids short-circuit to the extended limit; otherwise
the first matching table pattern wins; otherwise the default. -/
def inferContextLimit (env1m : Bool) (modelID : String) : Nat :=
  if testClaude modelID then EXTENDED_CONTEXT_LIMIT env1m
  else
    match findPatternLimit MODEL_CONTEXT_PATTERNS modelID with
    | some limit => limit
    | none => DEFAULT_CONTEXT_LIMIT

/-! ### Preemptive compaction trigger (src/unnamed/part_007 lines 68-134)

checkAndTriggerCompaction is a sequence of early-return guards followed by
the compaction phases.  We embed the guard sequence as a pure function of the
controller state, the wall clock and the triggering assistant message,
returning which guard fired or that the phases are reached.  Token counts are
naturals, the wall clock is an integer in milliseconds, and the usage ratio
comparison is exact rational arithmetic. -/

/-- Token usage of an assistant message (tokens.input, tokens.cache.read,
tokens.output). -/
structure TokenInfo where
  input : Nat
  output : Nat
  cacheRead : Nat
deriving DecidableEq, Repr

/-- The fields of MessageInfo that checkAndTriggerCompaction reads; a missing
modelID or providerID is defaulted to "" as in the source (?? ""). -/
structure MessageInfo where
  summary : Bool
  tokens : Option TokenInfo
  modelID : String
  providerID : String
deriving DecidableEq, Repr

/-- PreemptiveCompactionState from src/unnamed/part_007 lines 29-34. -/
structure PreemptiveCompactionState where
  lastCompactionTime : List (String × Int)
  compactionInProgress : List String
deriving DecidableEq, Repr

/-- Which early-return guard of checkAndTriggerCompaction fired, or that
control reached the compaction phases (toast, truncation, decision). -/
inductive CompactionOutcome
  | inProgress
  | cooldown
  | summaryMessage
  | noTokenInfo
  | belowMinTokens
  | underThreshold
  | missingProviderInfo
  | proceeds
deriving DecidableEq, Repr

/-- The guard sequence of checkAndTriggerCompaction (src/unnamed/part_007
lines 68-135), in source order: in-progress check, cooldown check, summary
check, token presence, minimum-token floor, threshold comparison, and the
provider/model validation that still precedes the compaction phases. -/
def checkAndTrigger (env1m : Bool) (cooldownMs : Int) (minTokens : Nat)
    (threshold : ℚ) (st : PreemptiveCompactionState) (now : Int)
    (sessionID : String) (m : MessageInfo) : CompactionOutcome :=
  if st.compactionInProgress.contains sessionID then CompactionOutcome.inProgress
  else
    let lastCompaction := (mapGet st.lastCompactionTime sessionID).getD 0
    if now - lastCompaction < cooldownMs then CompactionOutcome.cooldown
    else if m.summary then CompactionOutcome.summaryMessage
    else
      match m.tokens with
      | none => CompactionOutcome.noTokenInfo
      | some tokens =>
          let contextLimit := inferContextLimit env1m m.modelID
          let totalUsed := tokens.input + tokens.cacheRead + tokens.output
          if totalUsed < minTokens then CompactionOutcome.belowMinTokens
          else if (totalUsed : ℚ) / (contextLimit : ℚ) < threshold then
            CompactionOutcome.underThreshold
          else if m.providerID = "" ∨ m.modelID = "" then
            CompactionOutcome.missingProviderInfo
          else CompactionOutcome.proceeds

/-! ### Truncation storage model (src/lib/preemptive/storage.ts)

The source walks the opencode on-disk store: one directory of message json
files per session (getMessageIds) and one directory of part json files per
message.  We model the store as a pure value: the session is the list of its
messages in readdir order, each carrying its id, its file mtime and its parts
in readdir order.  The single-threaded host guarantees the store does not
change between findToolResultsBySize and the truncation writes, so the
read-modify-write loop is embedded as a pure function of this value. -/

/-- A stored part file (StoredToolPart in src/lib/preemptive/types.ts).
output = none models a part whose state has no output field; the empty
string is falsy in the source test part.state?.output. -/
structure StoredPart where
  id : String
  ptype : String
  tool : String
  output : Option String
  truncated : Bool
deriving DecidableEq, Repr

/-- A stored message: id (filename), mtime of the message file, parts. -/
structure StoredMessage where
  id : String
  mtime : Int
  parts : List StoredPart
deriving DecidableEq, Repr

/-- ToolResultInfo from src/lib/preemptive/types.ts as used by storage.ts. -/
structure ToolResultInfo where
  messageID : String
  partId : String
  toolName : String
  outputSize : Nat
deriving DecidableEq, Repr

/-- Newest-first order on messages (the mtime sort comparator
(a, b) => b.mtime - a.mtime of storage.ts line 90). -/
def msgNewer (a b : StoredMessage) : Prop := b.mtime ≤ a.mtime

instance : DecidableRel msgNewer := fun a b => inferInstanceAs (Decidable (b.mtime ≤ a.mtime))

/-- Larger-output-first order on tool results (the size sort comparator
(a, b) => b.outputSize - a.outputSize of storage.ts line 133). -/
def sizeGe (a b : ToolResultInfo) : Prop := b.outputSize ≤ a.outputSize

instance : DecidableRel sizeGe := fun a b => inferInstanceAs (Decidable (b.outputSize ≤ a.outputSize))

/-- The protected-message computation of findToolResultsBySize (storage.ts
lines 73-96): when a positive count is requested and the session is nonempty,
the ids of the protectedMessageCount most recent messages by mtime.  The
JavaScript sort is stable, as is List.insertionSort. -/
def protectedMessageIds (session : List StoredMessage) (protectedMessageCount : Nat) :
    List String :=
  if 0 < protectedMessageCount ∧ session ≠ [] then
    ((session.insertionSort msgNewer).take protectedMessageCount).map (fun m => m.id)
  else []

/-- The inclusion filter of findToolResultsBySize (storage.ts line 114): only
completed tool parts with a truthy output that are not already truncated. -/
def partToInfo (messageID : String) (p : StoredPart) : Option ToolResultInfo :=
  match p.output with
  | some s =>
      if p.ptype = "tool" ∧ s ≠ "" ∧ ¬ p.truncated then
        some { messageID := messageID, partId := p.id, toolName := p.tool,
               outputSize := s.length }
      else none
  | none => none

/-- findToolResultsBySize from storage.ts lines 65-134: collects tool-result
infos from every non-protected message and sorts them largest-output first. -/
def findToolResultsBySize (session : List StoredMessage) (protectedMessageCount : Nat) :
    List ToolResultInfo :=
  let prot := protectedMessageIds session protectedMessageCount
  ((session.filter (fun m => ¬ prot.contains m.id)).flatMap
      (fun m => m.parts.filterMap (partToInfo m.id))).insertionSort sizeGe

/-- TruncationResult from src/lib/preemptive/types.ts as built by storage.ts. -/
structure TruncationResult where
  success : Bool
  sufficient : Bool
  truncatedCount : Nat
  totalBytesRemoved : Int
  targetBytesToRemove : Int
  truncatedTools : List (String × Nat)
deriving DecidableEq, Repr

/-- The greedy loop of truncateUntilTargetTokens (storage.ts lines 269-285):
each result in order is truncated (always successfully in this model, since
every collected result has an output) and the loop breaks as soon as the
accumulated removed size reaches the target. -/
def truncateLoop (target : Int) (acc : Int) : List ToolResultInfo → List ToolResultInfo
  | [] => []
  | r :: rs =>
      let acc2 := acc + (r.outputSize : Int)
      if target ≤ acc2 then [r] else r :: truncateLoop target acc2 rs

/-- The list of results actually truncated by truncateUntilTargetTokens:
empty when already at or below target or when nothing is available, else the
greedy prefix of the size-sorted results. -/
def truncatedInfos (session : List StoredMessage) (currentTokens maxTokens : Nat)
    (targetFrac : ℚ) (charsPerToken protectedMessageCount : Nat) : List ToolResultInfo :=
  let targetTokens : Int := Rat.floor ((maxTokens : ℚ) * targetFrac)
  let tokensToReduce : Int := (currentTokens : Int) - targetTokens
  let charsToReduce : Int := tokensToReduce * (charsPerToken : Int)
  if tokensToReduce ≤ 0 then []
  else truncateLoop charsToReduce 0 (findToolResultsBySize session protectedMessageCount)

/-- truncateUntilTargetTokens from storage.ts lines 226-297. -/
def truncateUntilTargetTokens (session : List StoredMessage) (currentTokens maxTokens : Nat)
    (targetFrac : ℚ) (charsPerToken protectedMessageCount : Nat) : TruncationResult :=
  let targetTokens : Int := Rat.floor ((maxTokens : ℚ) * targetFrac)
  let tokensToReduce : Int := (currentTokens : Int) - targetTokens
  let charsToReduce : Int := tokensToReduce * (charsPerToken : Int)
  if tokensToReduce ≤ 0 then
    { success := true, sufficient := true, truncatedCount := 0, totalBytesRemoved := 0,
      targetBytesToRemove := 0, truncatedTools := [] }
  else
    let results := findToolResultsBySize session protectedMessageCount
    if results = [] then
      { success := false, sufficient := false, truncatedCount := 0, totalBytesRemoved := 0,
        targetBytesToRemove := charsToReduce, truncatedTools := [] }
    else
      let infos := truncateLoop charsToReduce 0 results
      let total : Int := (infos.map (fun i => (i.outputSize : Int))).sum
      { success := decide (0 < infos.length), sufficient := decide (charsToReduce ≤ total),
        truncatedCount := infos.length, totalBytesRemoved := total,
        targetBytesToRemove := charsToReduce,
        truncatedTools := infos.map (fun i => (i.toolName, i.outputSize)) }

/-! ### Prunable-tools list and auto-prune strategy
(src/lib/messages/inject.ts and src/lib/strategies/auto-prune.ts)

state.toolParameters is the insertion-ordered invocation map; its values
carry the tool name and the parsed parameters (ToolParameterEntry from
src/lib/state).  buildToolIdList, getFilePathFromParameters,
isProtectedFilePath and extractParameterKey live outside src/, so the
canonical id list and the protected-file-path test are taken as parameters;
the parameters type is abstract. -/

/-- ToolParameterEntry from src/lib/state (the fields read here). -/
structure ToolParameterEntry (α : Type) where
  tool : String
  parameters : α
deriving DecidableEq, Repr

/-- JavaScript Array.prototype.indexOf: index of the element or -1. -/
def jsIndexOf (l : List String) (x : String) : Int :=
  match l.findIdx? (fun y => y = x) with
  | some i => (i : Int)
  | none => -1

/-- One entry of the prunable-tools listing offered to the LLM (the data of
one rendered line; the rendered description additionally goes through
extractParameterKey, which lives outside src/ and is presentation only). -/
structure PrunableLine where
  numericId : Int
  toolCallId : String
  tool : String
deriving DecidableEq, Repr

/-- The forEach filter of buildPrunableToolsList (src/lib/messages/inject.ts
lines 76-118): an invocation is listed unless it is already pruned, its tool
is protected, its file-path parameter is protected, or it is absent from the
live canonical id list (indexOf = -1, the stale-entry warn branch). -/
def prunableLineStep {α : Type} (protectedTools pruneIds : List String)
    (protectedPath : α → Bool) (toolIdList : List String)
    (lines : List PrunableLine) (p : String × ToolParameterEntry α) : List PrunableLine :=
  if pruneIds.contains p.1 then lines
  else if protectedTools.contains p.2.tool then lines
  else if protectedPath p.2.parameters then lines
  else
    let numericId := jsIndexOf toolIdList p.1
    if numericId = -1 then lines
    else lines ++ [{ numericId := numericId, toolCallId := p.1, tool := p.2.tool }]

/-- The forEach of buildPrunableToolsList as a fold over the insertion-ordered
invocation map. -/
def buildPrunableLines {α : Type} (protectedTools pruneIds : List String)
    (protectedPath : α → Bool) (toolIdList : List String)
    (toolParameters : List (String × ToolParameterEntry α)) : List PrunableLine :=
  toolParameters.foldl (prunableLineStep protectedTools pruneIds protectedPath toolIdList) []

/-- The mark-collection loop of autoPrune (src/lib/strategies/auto-prune.ts
lines 93-118): every cached invocation is marked for pruning unless it is
pinned, already pruned, its tool is protected, or it is not in the live
canonical id list; the collected ids are appended to state.prune.toolIds. -/
def autoPruneStep {α : Type} (protectedTools pruneIds pinnedIds toolIdList : List String)
    (acc : List String) (p : String × ToolParameterEntry α) : List String :=
  if pinnedIds.contains p.1 then acc
  else if pruneIds.contains p.1 then acc
  else if protectedTools.contains p.2.tool then acc
  else if ¬ toolIdList.contains p.1 then acc
  else acc ++ [p.1]

/-- The id-collection loop of autoPrune as a fold over the insertion-ordered
invocation map. -/
def autoPruneMarks {α : Type} (protectedTools pruneIds pinnedIds toolIdList : List String)
    (toolParameters : List (String × ToolParameterEntry α)) : List String :=
  toolParameters.foldl (autoPruneStep protectedTools pruneIds pinnedIds toolIdList) []

/-! ### LLM-directed prune tools (discard / extract / pin)

src/index.ts wires createDiscardTool, createExtractTool and createPinTool
from ./lib/strategies into the tool surface, but their implementation file is
not under src/; only the callers, prompts and configuration are.  The
validation behaviour is therefore modelled from the spec. -/

/-- The conversation state the three tools may mutate: the prune mark list,
the pin map (id to expiry turn) and the extract replacement texts. -/
structure PruneToolState where
  pruneIds : List String
  pins : List (String × Nat)
  replacements : List (String × String)
deriving DecidableEq, Repr

/-- Reply of a tool call: a confirmation or a rejection surfaced to the LLM. -/
inductive ToolReply
  | confirmation (text : String)
  | rejected (text : String)
deriving DecidableEq, Repr

/-- Modelled from the spec: the id validation shared by discard, extract and
pin (createDiscardTool / createExtractTool / createPinTool are imported by
src/index.ts from ./lib/strategies but are not under src/).  Spec 4.3: any
id not present in the canonical list for the current turn is rejected as an
error (stale or fabricated reference), not silently ignored. -/
def validIds (canonical ids : List String) : Bool :=
  ids.all (fun i => canonical.contains i)

/-- Modelled from the spec: discard(ids, reason) marks the referenced ids
with no content substitute; any stale id rejects the call with an error and
mutates no state (spec 4.3, 7b, 8). -/
def runDiscard (canonical : List String) (st : PruneToolState) (ids : List String) :
    ToolReply × PruneToolState :=
  if validIds canonical ids then
    (ToolReply.confirmation "discarded", { st with pruneIds := st.pruneIds ++ ids })
  else
    (ToolReply.rejected "stale or fabricated id not in the current prunable list", st)

/-- Modelled from the spec: extract(ids, distillation) is positional and
fails with a validation error when the lengths differ; a stale id rejects the
call; on success distillation i becomes the replacement text of ids i and
the records are marked pruned (spec 4.3, 6, 7b, 8). -/
def runExtract (canonical : List String) (st : PruneToolState)
    (ids distillation : List String) : ToolReply × PruneToolState :=
  if ids.length ≠ distillation.length then
    (ToolReply.rejected "ids and distillation must have the same length", st)
  else if validIds canonical ids then
    (ToolReply.confirmation "extracted",
      { st with pruneIds := st.pruneIds ++ ids,
                replacements := st.replacements ++ ids.zip distillation })
  else
    (ToolReply.rejected "stale or fabricated id not in the current prunable list", st)

/-- Modelled from the spec: pin(ids, durationTurns) inserts or refreshes
pins with expiry currentTurn + durationTurns; a stale id rejects the call
and mutates no state (spec 4.3, 6, 7b). -/
def runPin (canonical : List String) (currentTurn durationTurns : Nat)
    (st : PruneToolState) (ids : List String) : ToolReply × PruneToolState :=
  if validIds canonical ids then
    (ToolReply.confirmation "pinned",
      { st with pins := ids.foldl (fun m i => mapSet m i (currentTurn + durationTurns)) st.pins })
  else
    (ToolReply.rejected "stale or fabricated id not in the current prunable list", st)

/-- The field-level frame relation between an input part and its rewritten
image: every field except pstate.output is preserved, and pstate.output is
replaced exactly when the part is a completed tool part marked in the prune
set. -/
def partFrame (pruneIds : List String) (p q : Part) : Prop :=
  q.ptype = p.ptype ∧ q.callID = p.callID ∧ q.tool = p.tool ∧ q.text = p.text ∧
  q.synthetic = p.synthetic ∧ q.pstate.status = p.pstate.status ∧
  q.pstate.input = p.pstate.input ∧ q.pstate.errorText = p.pstate.errorText ∧
  q.pstate.title = p.pstate.title ∧
  q.pstate.output =
    (if p.ptype = "tool" ∧ pruneIds.contains p.callID = true ∧
        p.pstate.status = PStatus.completed
     then PRUNED_TOOL_OUTPUT_REPLACEMENT else p.pstate.output)

/-- A concrete Bedrock conversation: one assistant message holding the
tool-call (toolUse) side of pair call_1, one user message holding the
tool-result (toolResult) side. -/
def c1Data : List BMessage :=
  [ { role := "assistant",
      content := some [BBlock.toolUse { toolUseId := "call_1", name := "read",
                                        input := "/a.ts" }] },
    { role := "user",
      content := some [BBlock.toolResult "call_1" ["file contents of /a.ts"]] } ]

/-- The message-level frame of the Bedrock rewrite: role preserved, messages
that are not user messages with array content untouched, and user-message
content rewritten exactly by the block map. -/
def bmsgFrame (toolIdLower msg : String) (m m2 : BMessage) : Prop :=
  m2.role = m.role ∧
  (¬ (m.role = "user" ∧ m.content ≠ none) → m2 = m) ∧
  (∀ blocks, m.content = some blocks → m.role = "user" →
      m2.content = some (blocks.map (bedrockReplaceBlock toolIdLower msg)))

/-- One tool call of a batch counts as well formed for id a when the id is
truthy and equal to a, the function field is present and its arguments
resolve (parse) successfully. -/
def goodCall {α : Type} (parse : String → Option α) (a : String) (tc : CCToolCall α) : Bool :=
  decide (tc.id = a) && decide (a ≠ "") &&
    (match tc.fn with
     | none => false
     | some f => (resolveArgs parse f.arguments).isSome)

/-- A well-formed occurrence of tool-call id a inside one message: assistant
role with a tool_calls array holding a well-formed call for a. -/
def wfInMsg {α : Type} (parse : String → Option α) (a : String) (m : CCMessage α) : Bool :=
  decide (m.role = "assistant") && (m.toolCalls.getD []).any (goodCall parse a)

/-- A well-formed occurrence of tool-call id a anywhere in a batch. -/
def wellFormedCallIn {α : Type} (parse : String → Option α)
    (messages : List (CCMessage α)) (a : String) : Bool :=
  messages.any (wfInMsg parse a)

/-! ## Theorems -/

/-- Rewriting a part twice is the same as rewriting it once: the first pass
changes neither the discriminator, the callID, nor the status, and the second
assignment writes the same replacement text. -/
theorem prunePart_idem (pruneIds : List String) (p : Part) :
    prunePart pruneIds (prunePart pruneIds p) = prunePart pruneIds p := by
  unfold prunePart
  split_ifs <;> simp_all

/-- C4: applying the rewrite pass twice to the same message list and prune
set produces a message list identical to applying it once — rewriting an
already-pruned record is a no-op on the content (src/unnamed/part_002,
prune / pruneToolOutputs). -/
theorem prune_idempotent (pruneIds : List String) (messages : List WithParts) :
    prune pruneIds (prune pruneIds messages) = prune pruneIds messages := by
  unfold prune pruneToolOutputs
  rw [List.map_map]
  apply List.map_congr_left
  intro m _
  simp only [Function.comp]
  congr 1
  rw [List.map_map]
  apply List.map_congr_left
  intro p _
  exact prunePart_idem pruneIds p

/-- prunePart realizes the frame relation. -/
theorem prunePart_frame (pruneIds : List String) (p : Part) :
    partFrame pruneIds p (prunePart pruneIds p) := by
  unfold prunePart partFrame
  split_ifs <;> simp_all

/-- The parts array of a message is rewritten pointwise by prunePart. -/
theorem parts_frame (pruneIds : List String) (l : List Part) :
    List.Forall₂ (partFrame pruneIds) l (l.map (prunePart pruneIds)) := by
  induction l with
  | nil => exact List.Forall₂.nil
  | cons p ps ih => exact List.Forall₂.cons (prunePart_frame pruneIds p) ih

/-- C10: the rewrite pass mutates only the output field of tool parts whose
callID is in the pruned set and whose status is completed; tool parts with
status error, pending or running — even when marked pruned — and all
non-tool parts and all other fields of every part are left unchanged
(src/unnamed/part_002, pruneToolOutputs).  Stated as a pointwise relation
between the input and output message lists: the info header is preserved and
every part satisfies the frame relation. -/
theorem pruneToolOutputs_frame (pruneIds : List String) (messages : List WithParts) :
    List.Forall₂
      (fun m m2 => m2.info = m.info ∧ List.Forall₂ (partFrame pruneIds) m.parts m2.parts)
      messages (pruneToolOutputs pruneIds messages) := by
  unfold pruneToolOutputs
  induction messages with
  | nil => exact List.Forall₂.nil
  | cons m ms ih => exact List.Forall₂.cons ⟨rfl, parts_frame pruneIds m.parts⟩ ih

/-- C9: every id passed to discard, extract or pin that is not in the current
canonical prunable list is rejected with an error and no conversation state
is mutated by the rejected call.  Modelled from the spec because the tool
implementations (createDiscardTool / createExtractTool / createPinTool) are
not under src/. -/
theorem pruneTools_reject_stale (canonical : List String) (st : PruneToolState)
    (ids distillation : List String) (currentTurn durationTurns : Nat) (badId : String)
    (hmem : badId ∈ ids) (hbad : badId ∉ canonical) :
    ((∃ e, (runDiscard canonical st ids).1 = ToolReply.rejected e) ∧
      (runDiscard canonical st ids).2 = st) ∧
    ((∃ e, (runExtract canonical st ids distillation).1 = ToolReply.rejected e) ∧
      (runExtract canonical st ids distillation).2 = st) ∧
    ((∃ e, (runPin canonical currentTurn durationTurns st ids).1 = ToolReply.rejected e) ∧
      (runPin canonical currentTurn durationTurns st ids).2 = st) := by
  have hv : validIds canonical ids = false := by
    unfold validIds
    by_contra h
    rw [Bool.not_eq_false, List.all_eq_true] at h
    exact hbad (by simpa using h badId hmem)
  refine ⟨?_, ?_, ?_⟩
  · unfold runDiscard
    rw [hv]
    exact ⟨⟨_, rfl⟩, rfl⟩
  · unfold runExtract
    by_cases hlen : ids.length = distillation.length
    · rw [if_neg (not_not_intro hlen), hv]
      exact ⟨⟨_, rfl⟩, rfl⟩
    · rw [if_pos hlen]
      exact ⟨⟨_, rfl⟩, rfl⟩
  · unfold runPin
    rw [hv]
    exact ⟨⟨_, rfl⟩, rfl⟩

/-- Concrete instantiation of the stale-reference rejection: id "99" is not
in the canonical list ["0", "1"], every tool rejects and state is unchanged. -/
theorem pruneTools_reject_stale_witness :
    (∃ e, (runDiscard ["0", "1"] { pruneIds := [], pins := [], replacements := [] }
      ["99"]).1 = ToolReply.rejected e) ∧
    (runDiscard ["0", "1"] { pruneIds := [], pins := [], replacements := [] }
      ["99"]).2 = { pruneIds := [], pins := [], replacements := [] } := by
  have h := pruneTools_reject_stale ["0", "1"]
    { pruneIds := [], pins := [], replacements := [] } ["99"] ["x"] 3 4 "99"
    (by decide) (by decide)
  exact h.1

/-- C1 counterexample: pruning call_1 on c1Data rewrites the tool-result
message (index 1) while the assistant message holding the paired tool-call
(index 0) is left byte-for-byte unchanged — so the prune operation mutates
the result side of the pair without rewriting the call side, refuting the
claim that a result is never rewritten unless its paired call is rewritten
in the same operation (src/lib/fetch-wrapper/formats/bedrock.ts,
replaceToolOutput). -/
theorem bedrock_rewrites_only_result_cex :
    (bedrockReplaceToolOutput c1Data "call_1" PRUNED_TOOL_OUTPUT_REPLACEMENT).1.get? 1 ≠
        c1Data.get? 1 ∧
    (bedrockReplaceToolOutput c1Data "call_1" PRUNED_TOOL_OUTPUT_REPLACEMENT).1.get? 0 =
        c1Data.get? 0 ∧
    (bedrockReplaceToolOutput c1Data "call_1" PRUNED_TOOL_OUTPUT_REPLACEMENT).2 = true := by
  exact ⟨by decide, by decide, by decide⟩

/-- A block that does not match the pruned id is returned unchanged. -/
theorem bedrockReplaceBlock_no_match (toolIdLower msg : String) (b : BBlock)
    (h : bedrockBlockMatches toolIdLower b = false) :
    bedrockReplaceBlock toolIdLower msg b = b := by
  cases b with
  | toolResult tid c =>
      simp only [bedrockBlockMatches, decide_eq_false_iff_not] at h
      simp only [bedrockReplaceBlock, if_neg h]
  | toolUse tu => rfl
  | text s => rfl
  | cachePoint => rfl

/-- When no block of a list matches, the block map is the identity. -/
theorem bedrockReplaceBlocks_id (toolIdLower msg : String) (blocks : List BBlock)
    (h : blocks.any (bedrockBlockMatches toolIdLower) = false) :
    blocks.map (bedrockReplaceBlock toolIdLower msg) = blocks := by
  induction blocks with
  | nil => rfl
  | cons b bs ih =>
      rw [List.any_cons, Bool.or_eq_false_iff] at h
      rw [List.map_cons, bedrockReplaceBlock_no_match toolIdLower msg b h.1, ih h.2]

/-- The per-message step of the Bedrock rewrite realizes the message frame. -/
theorem bedrockStep_frame (toolIdLower msg : String) (m : BMessage) :
    bmsgFrame toolIdLower msg m (bedrockStep toolIdLower msg m).1 := by
  obtain ⟨role, content⟩ := m
  cases content with
  | none =>
      exact ⟨rfl, fun _ => rfl, fun blocks hb => nomatch hb⟩
  | some blocks =>
      dsimp only [bmsgFrame, bedrockStep]
      by_cases hcond : role = "user" ∧ blocks.any (bedrockBlockMatches toolIdLower) = true
      · rw [if_pos hcond]
        refine ⟨rfl, fun h => absurd ⟨hcond.1, Option.some_ne_none blocks⟩ h, ?_⟩
        intro bl hbl _
        cases hbl
        rfl
      · rw [if_neg hcond]
        refine ⟨rfl, fun _ => rfl, ?_⟩
        intro bl hbl hrole
        cases hbl
        have hany : blocks.any (bedrockBlockMatches toolIdLower) = false := by
          cases h2 : blocks.any (bedrockBlockMatches toolIdLower) with
          | false => rfl
          | true => exact absurd ⟨hrole, h2⟩ hcond
        rw [bedrockReplaceBlocks_id toolIdLower msg blocks hany]

/-- C1 amended: a Bedrock prune operation rewrites only the tool-result side
of a call/result pair.  replaceToolOutput preserves every message role,
leaves every message that is not a user message with array content (in
particular every assistant message, hence every toolUse tool-call block)
unchanged, rewrites user-message content blockwise, and the block rewrite
never mutates a tool-call block, never mutates a non-matching block, and
replaces the content of a matching toolResult block with the pruned message
(src/lib/fetch-wrapper/formats/bedrock.ts, replaceToolOutput). -/
theorem bedrockReplaceToolOutput_frame (data : List BMessage) (toolId msg : String) :
    List.Forall₂ (bmsgFrame (strLower toolId) msg) data
      (bedrockReplaceToolOutput data toolId msg).1 ∧
    (∀ tu, bedrockReplaceBlock (strLower toolId) msg (BBlock.toolUse tu) = BBlock.toolUse tu) ∧
    (∀ b, bedrockBlockMatches (strLower toolId) b = false →
        bedrockReplaceBlock (strLower toolId) msg b = b) ∧
    (∀ tid c, strLower tid = strLower toolId →
        bedrockReplaceBlock (strLower toolId) msg (BBlock.toolResult tid c) =
          BBlock.toolResult tid [msg]) := by
  refine ⟨?_, fun tu => rfl, bedrockReplaceBlock_no_match (strLower toolId) msg, ?_⟩
  · unfold bedrockReplaceToolOutput
    induction data with
    | nil => exact List.Forall₂.nil
    | cons m ms ih =>
        exact List.Forall₂.cons (bedrockStep_frame (strLower toolId) msg m) ih
  · intro tid c h
    simp only [bedrockReplaceBlock, if_pos h]

/-- Concrete instantiation of the amended pairing property: rewriting id
call_1 replaces the content of a matching toolResult block (id compared
case-insensitively) with the pruned message. -/
theorem bedrockReplaceToolOutput_frame_witness :
    bedrockReplaceBlock (strLower "call_1") PRUNED_TOOL_OUTPUT_REPLACEMENT
        (BBlock.toolResult "CALL_1" ["old output"]) =
      BBlock.toolResult "CALL_1" [PRUNED_TOOL_OUTPUT_REPLACEMENT] :=
  (bedrockReplaceToolOutput_frame c1Data "call_1"
    PRUNED_TOOL_OUTPUT_REPLACEMENT).2.2.2 "CALL_1" ["old output"] (by decide)

/-- C2 counterexample: at a summary message the four claimed conditions all
hold — usage ratio 190000/200000 is at least the 0.85 threshold, the total
is at least the 50000 floor, no compaction is in progress, and the cooldown
(60000 ms since time 0 at time 1000000) has elapsed — yet the controller
returns at the summary-message guard and never reaches the compaction
phases, so the claimed if-and-only-if fails (src/unnamed/part_007,
checkAndTriggerCompaction lines 86-89). -/
theorem checkAndTrigger_summary_cex :
    (85 : ℚ) / 100 ≤
        ((180000 + 0 + 10000 : Nat) : ℚ) / ((inferContextLimit false "claude-sonnet-4" : Nat) : ℚ) ∧
    (50000 : Nat) ≤ 180000 + 0 + 10000 ∧
    ([] : List String).contains "s1" = false ∧
    (60000 : Int) ≤ 1000000 - 0 ∧
    checkAndTrigger false 60000 50000 (85 / 100)
        { lastCompactionTime := [], compactionInProgress := [] } 1000000 "s1"
        { summary := true,
          tokens := some { input := 180000, output := 10000, cacheRead := 0 },
          modelID := "claude-sonnet-4", providerID := "anthropic" } ≠
      CompactionOutcome.proceeds := by
  refine ⟨by norm_num [inferContextLimit, EXTENDED_CONTEXT_LIMIT, DEFAULT_CONTEXT_LIMIT, testClaude, containsCI, strLower, hasSubAux], by decide, by decide, by decide, by decide⟩

/-- C2 amended: the controller reaches its compaction phases if and only if,
in addition to the four claimed conditions (ratio at least threshold, total
at least the floor, not mid-compaction, cooldown elapsed), the triggering
message is not a summary message, its token usage info is present, and both
its provider id and model id are non-empty (src/unnamed/part_007,
checkAndTriggerCompaction). -/
theorem checkAndTrigger_proceeds_iff (env1m : Bool) (cooldownMs : Int) (minTokens : Nat)
    (threshold : ℚ) (st : PreemptiveCompactionState) (now : Int) (sessionID : String)
    (m : MessageInfo) :
    checkAndTrigger env1m cooldownMs minTokens threshold st now sessionID m =
        CompactionOutcome.proceeds ↔
      st.compactionInProgress.contains sessionID = false ∧
      cooldownMs ≤ now - (mapGet st.lastCompactionTime sessionID).getD 0 ∧
      m.summary = false ∧
      m.providerID ≠ "" ∧ m.modelID ≠ "" ∧
      ∃ tokens, m.tokens = some tokens ∧
        minTokens ≤ tokens.input + tokens.cacheRead + tokens.output ∧
        threshold ≤ ((tokens.input + tokens.cacheRead + tokens.output : Nat) : ℚ) /
            ((inferContextLimit env1m m.modelID : Nat) : ℚ) := by
  obtain ⟨summary, tokens, modelID, providerID⟩ := m
  cases tokens with
  | none =>
      dsimp only [checkAndTrigger]
      split_ifs <;> simp_all
  | some t =>
      dsimp only [checkAndTrigger]
      split_ifs with h1 h2 h3 h4 h5 h6 <;>
        first
        | (simp_all [not_lt, not_or]; done)
        | (simp_all [not_lt, not_or]; tauto)

/-- Concrete triggering instance: all amended conditions hold and the
controller reaches its compaction phases. -/
theorem checkAndTrigger_proceeds_iff_witness :
    checkAndTrigger false 60000 50000 (85 / 100)
        { lastCompactionTime := [], compactionInProgress := [] } 1000000 "s1"
        { summary := false,
          tokens := some { input := 180000, output := 10000, cacheRead := 0 },
          modelID := "claude-sonnet-4", providerID := "anthropic" } =
      CompactionOutcome.proceeds := by
  refine (checkAndTrigger_proceeds_iff false 60000 50000 (85 / 100)
    { lastCompactionTime := [], compactionInProgress := [] } 1000000 "s1"
    { summary := false,
      tokens := some { input := 180000, output := 10000, cacheRead := 0 },
      modelID := "claude-sonnet-4", providerID := "anthropic" }).mpr ?_
  refine ⟨by decide, by decide, rfl, by decide, by decide, _, rfl, by decide, ?_⟩
  norm_num [inferContextLimit, EXTENDED_CONTEXT_LIMIT, DEFAULT_CONTEXT_LIMIT, testClaude,
    containsCI, strLower, hasSubAux]

/-- When no pattern of a table matches, the scan finds nothing. -/
theorem findPatternLimit_none (pats : List ((String → Bool) × Nat)) (m : String)
    (h : ∀ p ∈ pats, p.1 m = false) : findPatternLimit pats m = none := by
  induction pats with
  | nil => rfl
  | cons p rest ih =>
      unfold findPatternLimit
      rw [h p (List.mem_cons_self p rest)]
      exact ih (fun q hq => h q (List.mem_cons_of_mem p hq))

/-- The scan returns the limit of the first matching pattern. -/
theorem findPatternLimit_first (pats : List ((String → Bool) × Nat)) (m : String)
    (i : Nat) (hi : i < pats.length) (hmatch : (pats.get ⟨i, hi⟩).1 m = true)
    (hpre : ∀ j (hj : j < i), (pats.get ⟨j, lt_trans hj hi⟩).1 m = false) :
    findPatternLimit pats m = some (pats.get ⟨i, hi⟩).2 := by
  induction pats generalizing i with
  | nil => exact absurd hi (Nat.not_lt_zero i)
  | cons p rest ih =>
      cases i with
      | zero =>
          unfold findPatternLimit
          rw [show p.1 m = true from hmatch]
          rfl
      | succ n =>
          unfold findPatternLimit
          rw [show p.1 m = false from hpre 0 (Nat.succ_pos n)]
          exact ih n (Nat.lt_of_succ_lt_succ hi) hmatch
            (fun j hj => hpre (j + 1) (Nat.succ_lt_succ hj))

/-- C7: an unrecognized model id gets the conservative default of 200000
tokens; a model id matching the known table gets the first matching pattern
limit (the table is scanned in declared order); and Claude opus/sonnet/haiku
ids are raised to 1000000 exactly when the environment opt-in is set,
staying at the default otherwise (src/lib/preemptive/model-limits.ts,
inferContextLimit; src/unnamed/part_007, MODEL_CONTEXT_PATTERNS /
EXTENDED_CONTEXT_LIMIT). -/
theorem inferContextLimit_spec (env1m : Bool) (m : String) :
    ((∀ p ∈ MODEL_CONTEXT_PATTERNS, p.1 m = false) →
        inferContextLimit env1m m = DEFAULT_CONTEXT_LIMIT) ∧
    (testClaude m = true →
        inferContextLimit env1m m = if env1m then 1000000 else DEFAULT_CONTEXT_LIMIT) ∧
    (testClaude m = false →
        ∀ i (hi : i < MODEL_CONTEXT_PATTERNS.length),
          (MODEL_CONTEXT_PATTERNS.get ⟨i, hi⟩).1 m = true →
          (∀ j (hj : j < i), (MODEL_CONTEXT_PATTERNS.get ⟨j, lt_trans hj hi⟩).1 m = false) →
          inferContextLimit env1m m = (MODEL_CONTEXT_PATTERNS.get ⟨i, hi⟩).2) := by
  refine ⟨?_, ?_, ?_⟩
  · intro h
    have hcl : testClaude m = false := h (testClaude, 200000) (List.mem_cons_self _ _)
    unfold inferContextLimit
    rw [hcl, findPatternLimit_none MODEL_CONTEXT_PATTERNS m h]
    rfl
  · intro h
    unfold inferContextLimit
    rw [h]
    rfl
  · intro hcl i hi hmatch hpre
    unfold inferContextLimit
    rw [hcl, findPatternLimit_first MODEL_CONTEXT_PATTERNS m i hi hmatch hpre]
    rfl

/-- Concrete instantiations of the context-limit inference: a Claude model
with the opt-in set gets 1000000, gpt-4o matches the third table entry for
128000, and an unknown id falls back to the 200000 default. -/
theorem inferContextLimit_spec_witness :
    inferContextLimit true "anthropic/claude-sonnet-4-5" = 1000000 ∧
    inferContextLimit false "gpt-4o-mini" = 128000 ∧
    inferContextLimit true "totally-unknown-model" = 200000 := by
  refine ⟨?_, ?_, ?_⟩
  · have h := (inferContextLimit_spec true "anthropic/claude-sonnet-4-5").2.1 (by decide)
    simpa using h
  · exact (inferContextLimit_spec false "gpt-4o-mini").2.2 (by decide) 2 (by decide)
      (by decide) (by decide)
  · exact (inferContextLimit_spec true "totally-unknown-model").1 (by decide)

/-- Updating a key that is already present leaves the key list unchanged. -/
theorem keys_update {V : Type} (m : List (String × V)) (k : String) (v : V) :
    mapKeys (m.map (fun p => if p.1 = k then (k, v) else p)) = mapKeys m := by
  unfold mapKeys
  rw [List.map_map]
  apply List.map_congr_left
  intro p _
  by_cases h : p.1 = k
  · simp [Function.comp, h]
  · simp [Function.comp, h]

/-- Membership in the key list after a Map.set. -/
theorem mem_keys_mapSet {V : Type} (m : List (String × V)) (k : String) (v : V) (a : String) :
    a ∈ mapKeys (mapSet m k v) ↔ a ∈ mapKeys m ∨ a = k := by
  unfold mapSet
  by_cases h : m.any (fun p => p.1 = k) = true
  · rw [if_pos h, keys_update]
    have hk : k ∈ mapKeys m := by
      simp only [List.any_eq_true, decide_eq_true_eq] at h
      obtain ⟨p, hp, hpe⟩ := h
      exact hpe ▸ List.mem_map_of_mem Prod.fst hp
    constructor
    · exact Or.inl
    · rintro (ha | rfl)
      · exact ha
      · exact hk
  · rw [if_neg h]
    unfold mapKeys
    rw [List.map_append]
    simp

/-- Key membership after one per-call cache step: the keys grow by exactly
the well-formed id of this call. -/
theorem keys_cacheCallStep {α : Type} (parse : String → Option α)
    (acc : List (String × CacheEntry α) × List String) (tc : CCToolCall α) (a : String) :
    a ∈ mapKeys (cacheCallStep parse acc tc).1 ↔
      a ∈ mapKeys acc.1 ∨ goodCall parse a tc = true := by
  obtain ⟨tid, tfn⟩ := tc
  unfold cacheCallStep goodCall
  dsimp only
  by_cases hid : tid = ""
  · rw [if_pos hid]
    subst hid
    constructor
    · exact Or.inl
    · rintro (ha | hg)
      · exact ha
      · rw [Bool.and_eq_true, Bool.and_eq_true] at hg
        obtain ⟨⟨h1, h2⟩, _⟩ := hg
        rw [decide_eq_true_eq] at h1 h2
        exact absurd h1.symm h2
  · rw [if_neg hid]
    cases tfn with
    | none => simp
    | some f =>
        dsimp only
        cases hres : resolveArgs parse f.arguments with
        | none => simp [hres]
        | some params =>
            dsimp only
            rw [mem_keys_mapSet]
            simp only [hres, Option.isSome_some, Bool.and_true, Bool.and_eq_true,
              decide_eq_true_eq]
            constructor
            · rintro (ha | rfl)
              · exact Or.inl ha
              · exact Or.inr ⟨rfl, hid⟩
            · rintro (ha | ⟨h1, _⟩)
              · exact Or.inl ha
              · exact Or.inr h1.symm

/-- Key membership after the per-call fold over a tool_calls array. -/
theorem keys_callsFoldl {α : Type} (parse : String → Option α)
    (calls : List (CCToolCall α)) (acc : List (String × CacheEntry α) × List String)
    (a : String) :
    a ∈ mapKeys (calls.foldl (cacheCallStep parse) acc).1 ↔
      a ∈ mapKeys acc.1 ∨ calls.any (goodCall parse a) = true := by
  induction calls generalizing acc with
  | nil => simp
  | cons tc rest ih =>
      rw [List.foldl_cons, ih, keys_cacheCallStep, List.any_cons]
      simp only [or_assoc, Bool.or_eq_true]

/-- Key membership after one per-message cache step. -/
theorem keys_cacheMsgStep {α : Type} (parse : String → Option α)
    (acc : List (String × CacheEntry α) × List String) (m : CCMessage α) (a : String) :
    a ∈ mapKeys (cacheMsgStep parse acc m).1 ↔
      a ∈ mapKeys acc.1 ∨ wfInMsg parse a m = true := by
  obtain ⟨role, toolCalls⟩ := m
  unfold cacheMsgStep wfInMsg
  dsimp only
  cases toolCalls with
  | none => simp
  | some calls =>
      dsimp only
      by_cases hrole : role = "assistant"
      · rw [if_pos hrole, keys_callsFoldl]
        simp [hrole]
      · rw [if_neg hrole]
        simp [hrole]

/-- Key membership after the whole batch fold. -/
theorem keys_msgsFoldl {α : Type} (parse : String → Option α)
    (messages : List (CCMessage α)) (acc : List (String × CacheEntry α) × List String)
    (a : String) :
    a ∈ mapKeys (messages.foldl (cacheMsgStep parse) acc).1 ↔
      a ∈ mapKeys acc.1 ∨ wellFormedCallIn parse messages a = true := by
  induction messages generalizing acc with
  | nil => simp [wellFormedCallIn]
  | cons m rest ih =>
      rw [List.foldl_cons, ih, keys_cacheMsgStep]
      unfold wellFormedCallIn
      rw [List.any_cons]
      simp [or_assoc, Bool.or_eq_true, wellFormedCallIn]

/-- C8: for every batch of messages, a tool call whose argument payload
fails to parse (or whose id or function field is missing) is skipped and its
id is not added to the invocation cache, while every well-formed tool call
in the same batch is still cached; the function is total — a per-record
parse failure never aborts the batch and never raises
(src/unnamed/part_004, cacheToolParametersFromMessages; same loop in
src/unnamed/part_007 lines 355-386). -/
theorem cacheToolParameters_skips_bad_caches_good {α : Type} (parse : String → Option α)
    (messages : List (CCMessage α)) (st : List (String × CacheEntry α)) (a b : String)
    (ha1 : a ∉ mapKeys st) (ha2 : wellFormedCallIn parse messages a = false)
    (hb : wellFormedCallIn parse messages b = true) :
    a ∉ mapKeys (cacheToolParametersFromMessagesV0 parse messages st).1 ∧
    b ∈ mapKeys (cacheToolParametersFromMessagesV0 parse messages st).1 := by
  unfold cacheToolParametersFromMessagesV0
  constructor
  · intro hmem
    rcases (keys_msgsFoldl parse messages (st, []) a).mp hmem with h | h
    · exact ha1 h
    · rw [ha2] at h
      cases h
  · exact (keys_msgsFoldl parse messages (st, []) b).mpr (Or.inr hb)

/-- Concrete batch with one malformed call (raw arguments that fail to
parse) and one well-formed call: the malformed id stays uncached, the good
id is cached. -/
theorem cacheToolParameters_skips_bad_caches_good_witness :
    "bad_id" ∉ mapKeys (cacheToolParametersFromMessagesV0
        (fun s => if s = "ok" then some s else none)
        [{ role := "assistant",
           toolCalls := some
             [ { id := "bad_id", fn := some { name := "read", arguments := ArgPayload.raw "broken" } },
               { id := "good_id", fn := some { name := "write", arguments := ArgPayload.raw "ok" } } ] }]
        []).1 ∧
    "good_id" ∈ mapKeys (cacheToolParametersFromMessagesV0
        (fun s => if s = "ok" then some s else none)
        [{ role := "assistant",
           toolCalls := some
             [ { id := "bad_id", fn := some { name := "read", arguments := ArgPayload.raw "broken" } },
               { id := "good_id", fn := some { name := "write", arguments := ArgPayload.raw "ok" } } ] }]
        []).1 :=
  cacheToolParameters_skips_bad_caches_good
    (fun s => if s = "ok" then some s else none) _ [] "bad_id" "good_id"
    (by decide) (by decide) (by decide)

/-- Map.set preserves distinctness of keys. -/
theorem nodup_keys_mapSet {V : Type} (m : List (String × V)) (k : String) (v : V)
    (h : (mapKeys m).Nodup) : (mapKeys (mapSet m k v)).Nodup := by
  unfold mapSet
  by_cases hany : m.any (fun p => p.1 = k) = true
  · rw [if_pos hany, keys_update]
    exact h
  · rw [if_neg hany]
    unfold mapKeys
    rw [List.map_append, List.nodup_append]
    refine ⟨h, by simp, ?_⟩
    intro x hx hk
    simp only [List.map_cons, List.map_nil, List.mem_singleton] at hk
    subst hk
    have : m.any (fun p => p.1 = x) = true := by
      rw [List.any_eq_true]
      obtain ⟨p, hp, hpe⟩ := List.mem_map.mp hx
      exact ⟨p, hp, by simp [hpe]⟩
    exact hany this

/-- The per-call cache step preserves distinctness of keys. -/
theorem nodup_keys_cacheCallStep {α : Type} (parse : String → Option α)
    (acc : List (String × CacheEntry α) × List String) (tc : CCToolCall α)
    (h : (mapKeys acc.1).Nodup) : (mapKeys (cacheCallStep parse acc tc).1).Nodup := by
  obtain ⟨tid, tfn⟩ := tc
  unfold cacheCallStep
  dsimp only
  by_cases hid : tid = ""
  · rw [if_pos hid]
    exact h
  · rw [if_neg hid]
    cases tfn with
    | none => exact h
    | some f =>
        dsimp only
        cases resolveArgs parse f.arguments with
        | none => exact h
        | some params => exact nodup_keys_mapSet acc.1 tid _ h

/-- The per-message fold preserves distinctness of keys. -/
theorem nodup_keys_callsFoldl {α : Type} (parse : String → Option α)
    (calls : List (CCToolCall α)) (acc : List (String × CacheEntry α) × List String)
    (h : (mapKeys acc.1).Nodup) :
    (mapKeys (calls.foldl (cacheCallStep parse) acc).1).Nodup := by
  induction calls generalizing acc with
  | nil => exact h
  | cons tc rest ih => exact ih _ (nodup_keys_cacheCallStep parse acc tc h)

/-- One message step preserves distinctness of keys. -/
theorem nodup_keys_cacheMsgStep {α : Type} (parse : String → Option α)
    (acc : List (String × CacheEntry α) × List String) (m : CCMessage α)
    (h : (mapKeys acc.1).Nodup) : (mapKeys (cacheMsgStep parse acc m).1).Nodup := by
  obtain ⟨role, toolCalls⟩ := m
  unfold cacheMsgStep
  dsimp only
  cases toolCalls with
  | none => exact h
  | some calls =>
      dsimp only
      by_cases hrole : role = "assistant"
      · rw [if_pos hrole]
        exact nodup_keys_callsFoldl parse calls acc h
      · rw [if_neg hrole]
        exact h

/-- The whole batch fold preserves distinctness of keys. -/
theorem nodup_keys_msgsFoldl {α : Type} (parse : String → Option α)
    (messages : List (CCMessage α)) (acc : List (String × CacheEntry α) × List String)
    (h : (mapKeys acc.1).Nodup) :
    (mapKeys (messages.foldl (cacheMsgStep parse) acc).1).Nodup := by
  induction messages generalizing acc with
  | nil => exact h
  | cons m rest ih => exact ih _ (nodup_keys_cacheMsgStep parse acc m h)

/-- Deleting the key of the head entry removes exactly the head when keys
are distinct. -/
theorem mapDelete_cons_self {V : Type} (p : String × V) (rest : List (String × V))
    (h : p.1 ∉ mapKeys rest) : mapDelete (p :: rest) p.1 = rest := by
  unfold mapDelete
  rw [List.filter_cons_of_neg (by simp)]
  apply List.filter_eq_self.mpr
  intro q hq
  simp only [ne_eq, decide_eq_true_eq]
  intro hqe
  exact h (hqe ▸ List.mem_map_of_mem Prod.fst hq)

/-- Folding Map.delete over the first n keys of a distinct-keyed map drops
exactly its n oldest entries. -/
theorem deleteFold_eq_drop {V : Type} (m : List (String × V)) (n : Nat)
    (h : (mapKeys m).Nodup) : ((mapKeys m).take n).foldl mapDelete m = m.drop n := by
  induction m generalizing n with
  | nil => cases n <;> simp [mapKeys]
  | cons p rest ih =>
      cases n with
      | zero => simp
      | succ k =>
          have hnd : (mapKeys (p :: rest)).Nodup := h
          rw [show mapKeys (p :: rest) = p.1 :: mapKeys rest from rfl,
            List.nodup_cons] at hnd
          rw [show mapKeys (p :: rest) = p.1 :: mapKeys rest from rfl,
            List.take_succ_cons, List.foldl_cons, mapDelete_cons_self p rest hnd.1,
            List.drop_succ_cons]
          exact ih k hnd.2

/-- The trim keeps a small map unchanged and drops exactly the oldest excess
entries of a distinct-keyed oversized map. -/
theorem trimToolParametersCache_spec {α : Type} (m : List (String × CacheEntry α))
    (h : (mapKeys m).Nodup) :
    (m.length ≤ MAX_TOOL_PARAMETERS_CACHE_SIZE → trimToolParametersCache m = m) ∧
    (MAX_TOOL_PARAMETERS_CACHE_SIZE < m.length →
      trimToolParametersCache m = m.drop (m.length - MAX_TOOL_PARAMETERS_CACHE_SIZE)) := by
  unfold trimToolParametersCache
  constructor
  · intro hle
    rw [if_neg (by omega)]
  · intro hgt
    rw [if_pos (by omega)]
    exact deleteFold_eq_drop m _ h

/-- C6: after every caching operation the invocation map holds at most 500
entries; when the cap is exceeded exactly the oldest entries by insertion
order are evicted (the final map is the suffix dropping the excess oldest
entries, and a map within the cap is untouched); and an id still referenced
by a well-formed call in the live message list is re-cached by the sync and
present afterwards whenever the cache is within its bound
(src/unnamed/part_007, trimToolParametersCache /
cacheToolParametersFromMessages).  The distinct-keys hypothesis is the
JavaScript Map invariant. -/
theorem cacheToolParameters_bound {α : Type} (parse : String → Option α)
    (messages : List (CCMessage α)) (st : List (String × CacheEntry α))
    (hnd : (mapKeys st).Nodup) :
    ((cacheToolParametersFromMessages parse messages st).1.length ≤
        MAX_TOOL_PARAMETERS_CACHE_SIZE) ∧
    (MAX_TOOL_PARAMETERS_CACHE_SIZE <
        (cacheToolParametersFromMessagesV0 parse messages st).1.length →
      (cacheToolParametersFromMessages parse messages st).1 =
        (cacheToolParametersFromMessagesV0 parse messages st).1.drop
          ((cacheToolParametersFromMessagesV0 parse messages st).1.length -
            MAX_TOOL_PARAMETERS_CACHE_SIZE)) ∧
    ((cacheToolParametersFromMessagesV0 parse messages st).1.length ≤
        MAX_TOOL_PARAMETERS_CACHE_SIZE →
      (cacheToolParametersFromMessages parse messages st).1 =
        (cacheToolParametersFromMessagesV0 parse messages st).1) ∧
    (∀ a, wellFormedCallIn parse messages a = true →
      (cacheToolParametersFromMessagesV0 parse messages st).1.length ≤
          MAX_TOOL_PARAMETERS_CACHE_SIZE →
      a ∈ mapKeys (cacheToolParametersFromMessages parse messages st).1) := by
  have hmidnd : (mapKeys (cacheToolParametersFromMessagesV0 parse messages st).1).Nodup :=
    nodup_keys_msgsFoldl parse messages (st, []) hnd
  have htrim := trimToolParametersCache_spec
    (cacheToolParametersFromMessagesV0 parse messages st).1 hmidnd
  have hfinal : (cacheToolParametersFromMessages parse messages st).1 =
      trimToolParametersCache (cacheToolParametersFromMessagesV0 parse messages st).1 := rfl
  refine ⟨?_, ?_, ?_, ?_⟩
  · rw [hfinal]
    by_cases hle : (cacheToolParametersFromMessagesV0 parse messages st).1.length ≤
        MAX_TOOL_PARAMETERS_CACHE_SIZE
    · rw [htrim.1 hle]
      exact hle
    · rw [htrim.2 (by omega)]
      rw [List.length_drop]
      omega
  · intro hgt
    rw [hfinal, htrim.2 hgt]
  · intro hle
    rw [hfinal, htrim.1 hle]
  · intro a hwf hle
    rw [hfinal, htrim.1 hle]
    exact (keys_msgsFoldl parse messages (st, []) a).mpr (Or.inr hwf)

/-- Concrete instantiation of the cache bound: a single well-formed call is
cached by the sync and survives the trim. -/
theorem cacheToolParameters_bound_witness :
    "good_id" ∈ mapKeys (cacheToolParametersFromMessages
        (fun s => if s = "ok" then some s else none)
        [{ role := "assistant",
           toolCalls := some
             [ { id := "good_id",
                 fn := some { name := "write", arguments := ArgPayload.raw "ok" } } ] }]
        []).1 :=
  (cacheToolParameters_bound (fun s => if s = "ok" then some s else none)
    [{ role := "assistant",
       toolCalls := some
         [ { id := "good_id",
             fn := some { name := "write", arguments := ArgPayload.raw "ok" } } ] }]
    [] (by simp [mapKeys])).2.2.2 "good_id" (by decide) (by decide)

/-- The prunable-list fold only adds lines for non-protected tools. -/
theorem buildPrunableLines_aux {α : Type} (protectedTools pruneIds : List String)
    (protectedPath : α → Bool) (toolIdList : List String)
    (tps : List (String × ToolParameterEntry α)) (init : List PrunableLine)
    (h : ∀ l ∈ init, l.tool ∉ protectedTools) :
    ∀ l ∈ tps.foldl (prunableLineStep protectedTools pruneIds protectedPath toolIdList) init,
      l.tool ∉ protectedTools := by
  induction tps generalizing init with
  | nil => exact h
  | cons p rest ih =>
      rw [List.foldl_cons]
      refine ih _ ?_
      intro q hq
      unfold prunableLineStep at hq
      by_cases h1 : pruneIds.contains p.1 = true
      · rw [if_pos h1] at hq
        exact h q hq
      · rw [if_neg h1] at hq
        by_cases h2 : protectedTools.contains p.2.tool = true
        · rw [if_pos h2] at hq
          exact h q hq
        · rw [if_neg h2] at hq
          by_cases h3 : protectedPath p.2.parameters = true
          · rw [if_pos h3] at hq
            exact h q hq
          · rw [if_neg h3] at hq
            dsimp only at hq
            by_cases h4 : jsIndexOf toolIdList p.1 = -1
            · rw [if_pos h4] at hq
              exact h q hq
            · rw [if_neg h4] at hq
              rcases List.mem_append.mp hq with hq2 | hq2
              · exact h q hq2
              · rw [List.mem_singleton] at hq2
                subst hq2
                intro hmem
                exact h2 (List.elem_eq_true_of_mem hmem)

/-- The auto-prune fold only adds ids whose cached entry has a non-protected
tool: any collected id either came from the accumulator or stems from a map
entry whose tool is not protected. -/
theorem autoPruneMarks_aux {α : Type}
    (protectedTools pruneIds pinnedIds toolIdList : List String)
    (tps : List (String × ToolParameterEntry α)) (init : List String) (a : String)
    (ha : a ∈ tps.foldl (autoPruneStep protectedTools pruneIds pinnedIds toolIdList) init) :
    a ∈ init ∨ ∃ e, (a, e) ∈ tps ∧ e.tool ∉ protectedTools := by
  induction tps generalizing init with
  | nil => exact Or.inl ha
  | cons p rest ih =>
      rw [List.foldl_cons] at ha
      rcases ih (autoPruneStep protectedTools pruneIds pinnedIds toolIdList init p) ha with
        hmem | ⟨e, he, het⟩
      · unfold autoPruneStep at hmem
        by_cases h1 : pinnedIds.contains p.1 = true
        · rw [if_pos h1] at hmem
          exact Or.inl hmem
        · rw [if_neg h1] at hmem
          by_cases h2 : pruneIds.contains p.1 = true
          · rw [if_pos h2] at hmem
            exact Or.inl hmem
          · rw [if_neg h2] at hmem
            by_cases h3 : protectedTools.contains p.2.tool = true
            · rw [if_pos h3] at hmem
              exact Or.inl hmem
            · rw [if_neg h3] at hmem
              by_cases h4 : toolIdList.contains p.1 = true
              · rw [if_neg (by rw [h4]; exact not_not_intro rfl)] at hmem
                rcases List.mem_append.mp hmem with h5 | h5
                · exact Or.inl h5
                · rw [List.mem_singleton] at h5
                  subst h5
                  exact Or.inr ⟨p.2, by simp,
                    fun hm => h3 (List.elem_eq_true_of_mem hm)⟩
              · rw [if_pos (by rw [Bool.not_eq_true] at h4; rw [h4]; exact Bool.false_ne_true)] at hmem
                exact Or.inl hmem
      · exact Or.inr ⟨e, List.mem_cons_of_mem p he, het⟩

/-- C5: for every tool name in the configured protected set, the prunable
list offered to the LLM never contains an invocation of that tool and the
auto-prune strategy never marks one, for any invocation history, prune set,
pin set and canonical id list (src/lib/messages/inject.ts,
buildPrunableToolsList; src/lib/strategies/auto-prune.ts, autoPrune). -/
theorem protected_tools_never_pruned {α : Type}
    (protectedTools pruneIds pinnedIds toolIdList : List String)
    (protectedPath : α → Bool) (toolParameters : List (String × ToolParameterEntry α)) :
    (∀ l ∈ buildPrunableLines protectedTools pruneIds protectedPath toolIdList toolParameters,
        l.tool ∉ protectedTools) ∧
    (∀ a ∈ autoPruneMarks protectedTools pruneIds pinnedIds toolIdList toolParameters,
        ∃ e, (a, e) ∈ toolParameters ∧ e.tool ∉ protectedTools) := by
  constructor
  · exact buildPrunableLines_aux protectedTools pruneIds protectedPath toolIdList
      toolParameters [] (by simp)
  · intro a ha
    rcases autoPruneMarks_aux protectedTools pruneIds pinnedIds toolIdList
      toolParameters [] a ha with hmem | hgood
    · cases hmem
    · exact hgood

/-- Concrete instantiation: with todowrite protected, the list built from a
todowrite invocation and a read invocation offers only the read, and
auto-prune marks only the read id. -/
theorem protected_tools_never_pruned_witness :
    ((buildPrunableLines (α := Unit) ["todowrite"] [] (fun _ => false) ["id1", "id2"]
        [("id1", { tool := "todowrite", parameters := () }),
         ("id2", { tool := "read", parameters := () })]).all
      (fun l => l.tool ≠ "todowrite")) = true ∧
    "id2" ∈ autoPruneMarks (α := Unit) ["todowrite"] [] [] ["id1", "id2"]
        [("id1", { tool := "todowrite", parameters := () }),
         ("id2", { tool := "read", parameters := () })] ∧
    ∃ e, ("id2", e) ∈
        [("id1", ({ tool := "todowrite", parameters := () } : ToolParameterEntry Unit)),
         ("id2", { tool := "read", parameters := () })] ∧
      e.tool ∉ ["todowrite"] := by
  refine ⟨by decide, by decide, ?_⟩
  exact (protected_tools_never_pruned (α := Unit) ["todowrite"] [] [] ["id1", "id2"]
    (fun _ => false)
    [("id1", { tool := "todowrite", parameters := () }),
     ("id2", { tool := "read", parameters := () })]).2 "id2" (by decide)

instance : IsTotal ToolResultInfo sizeGe :=
  ⟨fun a b => le_total b.outputSize a.outputSize⟩

instance : IsTrans ToolResultInfo sizeGe :=
  ⟨fun _ _ _ h1 h2 => le_trans h2 h1⟩

/-- The greedy truncation loop only ever takes a prefix shape of its input:
its result is a sublist. -/
theorem truncateLoop_sublist (target acc : Int) (l : List ToolResultInfo) :
    List.Sublist (truncateLoop target acc l) l := by
  induction l generalizing acc with
  | nil => exact List.Sublist.refl []
  | cons r rs ih =>
      unfold truncateLoop
      by_cases h : target ≤ acc + (r.outputSize : Int)
      · rw [if_pos h]
        exact List.cons_sublist_cons.mpr (List.nil_sublist rs)
      · rw [if_neg h]
        exact List.cons_sublist_cons.mpr (ih _)

/-- findToolResultsBySize is sorted largest-output first. -/
theorem findToolResultsBySize_sorted (session : List StoredMessage)
    (protectedMessageCount : Nat) :
    (findToolResultsBySize session protectedMessageCount).Pairwise sizeGe := by
  unfold findToolResultsBySize
  exact List.sorted_insertionSort sizeGe _

/-- The info produced from a part carries the id of its message. -/
theorem partToInfo_messageID (messageID : String) (p : StoredPart) (i : ToolResultInfo)
    (h : partToInfo messageID p = some i) : i.messageID = messageID := by
  unfold partToInfo at h
  cases hout : p.output with
  | none => rw [hout] at h; cases h
  | some s =>
      rw [hout] at h
      dsimp only at h
      by_cases hc : p.ptype = "tool" ∧ s ≠ "" ∧ ¬ p.truncated
      · rw [if_pos hc] at h
        cases h
        rfl
      · rw [if_neg hc] at h
        cases h

/-- Every collected tool result comes from a non-protected message. -/
theorem findToolResultsBySize_not_protected (session : List StoredMessage)
    (protectedMessageCount : Nat) (i : ToolResultInfo)
    (hi : i ∈ findToolResultsBySize session protectedMessageCount) :
    i.messageID ∉ protectedMessageIds session protectedMessageCount := by
  unfold findToolResultsBySize at hi
  rw [List.mem_insertionSort] at hi
  rw [List.mem_flatMap] at hi
  obtain ⟨m, hm, hpart⟩ := hi
  rw [List.mem_filter] at hm
  obtain ⟨_, hmnp⟩ := hm
  rw [List.mem_filterMap] at hpart
  obtain ⟨p, _, hpi⟩ := hpart
  rw [partToInfo_messageID m.id p i hpi]
  simpa using hmnp

/-- Every strict prefix of the greedy loop removes strictly less than the
target: the loop stops as soon as the cumulative size reaches it. -/
theorem truncateLoop_prefix_sum (target : Int) (l : List ToolResultInfo) (acc : Int)
    (hacc : acc < target) (k : Nat) (hk : k < (truncateLoop target acc l).length) :
    acc + (((truncateLoop target acc l).take k).map
        (fun i => (i.outputSize : Int))).sum < target := by
  induction l generalizing acc k with
  | nil => simp [truncateLoop] at hk
  | cons r rs ih =>
      unfold truncateLoop at hk ⊢
      by_cases h : target ≤ acc + (r.outputSize : Int)
      · rw [if_pos h] at hk ⊢
        cases k with
        | zero => simpa using hacc
        | succ n => exact absurd hk (by simp)
      · rw [if_neg h] at hk ⊢
        cases k with
        | zero => simpa using hacc
        | succ n =>
            rw [List.length_cons] at hk
            rw [List.take_succ_cons, List.map_cons, List.sum_cons]
            have := ih (acc + (r.outputSize : Int)) (lt_of_not_le h) n
              (Nat.lt_of_succ_lt_succ hk)
            omega

/-- C3: the truncation phase truncates tool-result payloads largest first
(the truncated sizes are non-increasing in truncation order; the JavaScript
sort is stable, so equal sizes keep their discovery order), never truncates
a payload of one of the protected most-recent messages, stops as soon as the
cumulative removed size reaches the target (currentTokens minus the floor of
targetRatio times the context limit, converted to characters: every strict
prefix of the truncated sequence is still below the target), and truncates
nothing when the current token count is already at or below the target
(src/lib/preemptive/storage.ts, truncateUntilTargetTokens /
findToolResultsBySize). -/
theorem truncateUntilTargetTokens_spec (session : List StoredMessage)
    (currentTokens maxTokens : Nat) (targetFrac : ℚ)
    (charsPerToken protectedMessageCount : Nat) :
    ((truncateUntilTargetTokens session currentTokens maxTokens targetFrac charsPerToken
        protectedMessageCount).truncatedTools =
      (truncatedInfos session currentTokens maxTokens targetFrac charsPerToken
        protectedMessageCount).map (fun i => (i.toolName, i.outputSize))) ∧
    (truncatedInfos session currentTokens maxTokens targetFrac charsPerToken
        protectedMessageCount).Pairwise sizeGe ∧
    (∀ i ∈ truncatedInfos session currentTokens maxTokens targetFrac charsPerToken
        protectedMessageCount,
      i.messageID ∉ protectedMessageIds session protectedMessageCount) ∧
    (0 < charsPerToken →
      ∀ k, k < (truncatedInfos session currentTokens maxTokens targetFrac charsPerToken
          protectedMessageCount).length →
        (((truncatedInfos session currentTokens maxTokens targetFrac charsPerToken
            protectedMessageCount).take k).map (fun i => (i.outputSize : Int))).sum <
          ((currentTokens : Int) - Rat.floor ((maxTokens : ℚ) * targetFrac)) * (charsPerToken : Int)) ∧
    ((currentTokens : Int) ≤ Rat.floor ((maxTokens : ℚ) * targetFrac) →
      (truncateUntilTargetTokens session currentTokens maxTokens targetFrac charsPerToken
          protectedMessageCount).truncatedCount = 0) := by
  refine ⟨?_, ?_, ?_, ?_, ?_⟩
  · unfold truncateUntilTargetTokens truncatedInfos
    by_cases h1 : (currentTokens : Int) - Rat.floor ((maxTokens : ℚ) * targetFrac) ≤ 0
    · rw [if_pos h1, if_pos h1]
      simp
    · rw [if_neg h1, if_neg h1]
      by_cases h2 : findToolResultsBySize session protectedMessageCount = []
      · rw [if_pos h2, h2]
        simp [truncateLoop]
      · rw [if_neg h2]
  · unfold truncatedInfos
    by_cases h1 : (currentTokens : Int) - Rat.floor ((maxTokens : ℚ) * targetFrac) ≤ 0
    · rw [if_pos h1]
      exact List.Pairwise.nil
    · rw [if_neg h1]
      exact (findToolResultsBySize_sorted session protectedMessageCount).sublist
        (truncateLoop_sublist _ 0 _)
  · intro i hi
    unfold truncatedInfos at hi
    by_cases h1 : (currentTokens : Int) - Rat.floor ((maxTokens : ℚ) * targetFrac) ≤ 0
    · rw [if_pos h1] at hi
      cases hi
    · rw [if_neg h1] at hi
      exact findToolResultsBySize_not_protected session protectedMessageCount i
        ((truncateLoop_sublist _ 0 _).mem hi)
  · intro hcpt k hk
    unfold truncatedInfos at hk ⊢
    by_cases h1 : (currentTokens : Int) - Rat.floor ((maxTokens : ℚ) * targetFrac) ≤ 0
    · rw [if_pos h1] at hk
      cases hk
    · rw [if_neg h1] at hk ⊢
      have htpos : (0 : Int) <
          ((currentTokens : Int) - Rat.floor ((maxTokens : ℚ) * targetFrac)) * (charsPerToken : Int) := by
        have h2 : (0 : Int) < (currentTokens : Int) - Rat.floor ((maxTokens : ℚ) * targetFrac) := by omega
        have h3 : (0 : Int) < (charsPerToken : Int) := by exact_mod_cast hcpt
        exact mul_pos h2 h3
      have := truncateLoop_prefix_sum
        (((currentTokens : Int) - Rat.floor ((maxTokens : ℚ) * targetFrac)) * (charsPerToken : Int))
        (findToolResultsBySize session protectedMessageCount) 0 htpos k hk
      omega
  · intro hle
    unfold truncateUntilTargetTokens
    rw [if_pos (by omega)]

/-- Concrete instantiation of the truncation properties: an empty session
already at or below target truncates nothing, and on a two-message session
with one protected message the first truncation step starts strictly below
the removal target. -/
theorem truncateUntilTargetTokens_spec_witness :
    (truncateUntilTargetTokens [] 10 100 (9 / 10) 4 3).truncatedCount = 0 ∧
    ((((truncatedInfos
        [ { id := "m1", mtime := 1,
            parts := [ { id := "p1", ptype := "tool", tool := "read",
                         output := some "0123456789012345678901234567890123456789",
                         truncated := false } ] },
          { id := "m2", mtime := 2,
            parts := [ { id := "p2", ptype := "tool", tool := "bash",
                         output := some "0123456789", truncated := false } ] } ]
        100 100 (1 / 2) 4 1).take 0).map (fun i => (i.outputSize : Int))).sum <
      (((100 : Nat) : Int) - Rat.floor (((100 : Nat) : ℚ) * (1 / 2))) * ((4 : Nat) : Int)) := by
  have h50 : Rat.floor (((100 : Nat) : ℚ) * (1 / 2)) = 50 := by
    rw [show (((100 : Nat) : ℚ) * (1 / 2)) = ((50 : ℤ) : ℚ) by norm_num,
      show Rat.floor (((50 : ℤ) : ℚ)) = ⌊(((50 : ℤ)) : ℚ)⌋ from rfl, Int.floor_intCast]
  constructor
  · exact (truncateUntilTargetTokens_spec [] 10 100 (9 / 10) 4 3).2.2.2.2
      (by rw [Rat.le_floor]; norm_num)
  · refine (truncateUntilTargetTokens_spec
      [ { id := "m1", mtime := 1,
          parts := [ { id := "p1", ptype := "tool", tool := "read",
                       output := some "0123456789012345678901234567890123456789",
                       truncated := false } ] },
        { id := "m2", mtime := 2,
          parts := [ { id := "p2", ptype := "tool", tool := "bash",
                       output := some "0123456789", truncated := false } ] } ]
      100 100 (1 / 2) 4 1).2.2.2.1 (by decide) 0 ?_
    simp only [truncatedInfos]
    rw [h50]
    rw [if_neg (by norm_num)]
    decide

end DCP
